import Mathlib

/-!
Verification of the `nl-wireguard` crate's translation and orchestration
core, as a shallow embedding in Lean 4.

Embedding conventions:
* Rust machine integers (`u8`, `u16`, `u32`, `u64`) are `Nat` with explicit
  bounds where overflow matters; `i64` is `Int`.
* `[u8; 32]` keys are `List Nat` (each element `< 256`); `decode_key`
  guarantees length 32.
* `Result<T, E>` is `Except E T`, `Option<T>` is `Option T`.
* The asynchronous reply stream of the generic-netlink transport is a
  `List` of reply items: the orchestrator only ever maps over it and takes
  its head, so a finite list is a faithful model of every observable use.
* External collaborators (the `base64` engine, the netlink envelope types)
  are modelled concretely where the code's behaviour depends on them
  (the base64 codec) and opaquely where only their shape matters
  (`Debug`/`Display` text of foreign types).
-/

/-! ### The base64 collaborator (`base64::prelude::BASE64_STANDARD`)

The crate uses the standard RFC 4648 alphabet with mandatory canonical
padding and rejection of non-zero trailing bits, which is the configuration
of `BASE64_STANDARD`.  `encodeB64`/`decodeB64` model that engine on
`List Nat` bytes and `List Char` text. -/

def b64chars : List Char :=
  "ABCDEFGHIJKLMNOPQRSTUVWXYZabcdefghijklmnopqrstuvwxyz0123456789+/".data

/-- Alphabet table: the character encoding a 6-bit value. -/
def b64tab (x : Nat) : Char := b64chars.getD x 'A'

/-- Inverse alphabet: the 6-bit value of a character, `none` for characters
outside the alphabet (including the padding character). -/
def b64inv (c : Char) : Option Nat :=
  let n := c.toNat
  if 65 ≤ n ∧ n ≤ 90 then some (n - 65)
  else if 97 ≤ n ∧ n ≤ 122 then some (n - 97 + 26)
  else if 48 ≤ n ∧ n ≤ 57 then some (n - 48 + 52)
  else if n = 43 then some 62
  else if n = 47 then some 63
  else none

/-- Standard base64 encoding of a byte list, with padding. -/
def encodeB64 : List Nat → List Char
  | [] => []
  | [a] => [b64tab (a / 4), b64tab (a % 4 * 16), '=', '=']
  | [a, b] => [b64tab (a / 4), b64tab (a % 4 * 16 + b / 16), b64tab (b % 16 * 4), '=']
  | a :: b :: c :: rest =>
    b64tab (a / 4) :: b64tab (a % 4 * 16 + b / 16) ::
    b64tab (b % 16 * 4 + c / 64) :: b64tab (c % 64) :: encodeB64 rest

/-- Standard base64 decoding: requires canonical padding, rejects non-zero
trailing bits and any character outside the alphabet. -/
def decodeB64 : List Char → Option (List Nat)
  | [] => some []
  | c1 :: c2 :: c3 :: c4 :: rest =>
    match b64inv c1, b64inv c2 with
    | some x1, some x2 =>
      if c3 = '=' then
        if c4 = '=' ∧ rest = [] then
          if x2 % 16 = 0 then some [x1 * 4 + x2 / 16] else none
        else none
      else
        match b64inv c3 with
        | some x3 =>
          if c4 = '=' then
            if rest = [] then
              if x3 % 4 = 0 then some [x1 * 4 + x2 / 16, x2 % 16 * 16 + x3 / 4]
              else none
            else none
          else
            match b64inv c4 with
            | some x4 =>
              match decodeB64 rest with
              | some bs =>
                some ((x1 * 4 + x2 / 16) :: (x2 % 16 * 16 + x3 / 4) ::
                      (x3 % 4 * 64 + x4) :: bs)
              | none => none
            | none => none
        | none => none
    | _, _ => none
  | _ => none

/-- `BASE64_STANDARD.encode` on a byte value, producing a string. -/
def b64encode (bytes : List Nat) : String := ⟨encodeB64 bytes⟩

theorem b64inv_b64tab : ∀ x : Fin 64, b64inv (b64tab x.val) = some x.val := by decide

theorem b64tab_ne_pad : ∀ x : Fin 64, b64tab x.val ≠ '=' := by decide

theorem b64inv_b64tab_of_lt {x : Nat} (h : x < 64) : b64inv (b64tab x) = some x :=
  b64inv_b64tab ⟨x, h⟩

theorem b64tab_ne_pad_of_lt {x : Nat} (h : x < 64) : b64tab x ≠ '=' :=
  b64tab_ne_pad ⟨x, h⟩

/-- Decoding is a left inverse of encoding on genuine byte lists. -/
theorem decodeB64_encodeB64 :
    ∀ (l : List Nat), (∀ x ∈ l, x < 256) → decodeB64 (encodeB64 l) = some l
  | [], _ => rfl
  | [a], h => by
    have ha : a < 256 := h a (by simp)
    have h1 : a / 4 < 64 := by omega
    have h2 : a % 4 * 16 < 64 := by omega
    have e1 : a / 4 * 4 + a % 4 * 16 / 16 = a := by omega
    have e2 : a % 4 * 16 % 16 = 0 := by omega
    simp only [encodeB64, decodeB64, b64inv_b64tab_of_lt h1, b64inv_b64tab_of_lt h2]
    simp [e1, e2]
    omega
  | [a, b], h => by
    have ha : a < 256 := h a (by simp)
    have hb : b < 256 := h b (by simp)
    have h1 : a / 4 < 64 := by omega
    have h2 : a % 4 * 16 + b / 16 < 64 := by omega
    have h3 : b % 16 * 4 < 64 := by omega
    have e1 : a / 4 * 4 + (a % 4 * 16 + b / 16) / 16 = a := by omega
    have e2 : (a % 4 * 16 + b / 16) % 16 * 16 + b % 16 * 4 / 4 = b := by omega
    have e3 : b % 16 * 4 % 4 = 0 := by omega
    simp only [encodeB64, decodeB64, b64inv_b64tab_of_lt h1, b64inv_b64tab_of_lt h2]
    rw [if_neg (b64tab_ne_pad_of_lt h3)]
    simp only [b64inv_b64tab_of_lt h3]
    simp [e1, e2, e3]
    omega
  | a :: b :: c :: rest, h => by
    have ha : a < 256 := h a (by simp)
    have hb : b < 256 := h b (by simp)
    have hc : c < 256 := h c (by simp)
    have h1 : a / 4 < 64 := by omega
    have h2 : a % 4 * 16 + b / 16 < 64 := by omega
    have h3 : b % 16 * 4 + c / 64 < 64 := by omega
    have h4 : c % 64 < 64 := by omega
    have e1 : a / 4 * 4 + (a % 4 * 16 + b / 16) / 16 = a := by omega
    have e2 : (a % 4 * 16 + b / 16) % 16 * 16 + (b % 16 * 4 + c / 64) / 4 = b := by
      omega
    have e3 : (b % 16 * 4 + c / 64) % 4 * 64 + c % 64 = c := by omega
    have ih := decodeB64_encodeB64 rest (fun x hx => h x (by simp [hx]))
    simp only [encodeB64, decodeB64, b64inv_b64tab_of_lt h1, b64inv_b64tab_of_lt h2]
    rw [if_neg (b64tab_ne_pad_of_lt h3)]
    simp only [b64inv_b64tab_of_lt h3]
    rw [if_neg (b64tab_ne_pad_of_lt h4)]
    simp only [b64inv_b64tab_of_lt h4, ih, e1, e2, e3]

/-! ### Wire data model (re-exported `netlink-packet-wireguard` types)

The attribute-level binary codec is an external collaborator; the crate
consumes it as the following enum-like wire representation (`lib.rs`
re-exports).  Keys are 32-byte values, modelled as `List Nat`. -/

/-- `WireguardCmd` : the two generic-netlink commands used by the crate. -/
inductive WireguardCmd
  | GetDevice
  | SetDevice

/-- `WireguardAddressFamily` for allowed-IP entries. -/
inductive WireguardAddressFamily
  | Ipv4
  | Ipv6

/-- `std::net::IpAddr`, opaque except for its v4/v6 distinction. -/
inductive IpAddr
  | V4 (addr : Nat)
  | V6 (addr : Nat)

/-- `IpAddr::is_ipv4`. -/
def IpAddr.is_ipv4 : IpAddr → Bool
  | .V4 _ => true
  | .V6 _ => false

/-- `std::net::SocketAddr` : an IP address plus a port. -/
structure SocketAddr where
  ip : IpAddr
  port : Nat

/-- `WireguardTimeSpec` : the last-handshake wire timestamp, two signed
64-bit fields. -/
structure WireguardTimeSpec where
  seconds : Int
  nano_seconds : Int

/-- `std::time::Duration` : seconds plus a sub-second nanosecond part.
Every `Duration` the embedded code builds goes through
`Duration.new`, so the `nanos < 1e9` normalization invariant holds for
all values we construct. -/
structure Duration where
  secs : Nat
  nanos : Nat

/-- `Duration::new`, which carries surplus nanoseconds into the seconds
field (the overflow panic is unreachable for the inputs this crate
produces: `secs` comes from a non-negative `i64`). -/
def Duration.new (secs nanos : Nat) : Duration :=
  ⟨secs + nanos / 1000000000, nanos % 1000000000⟩

/-- Reinterpretation of a `u64` as an `i64` (`as i64` cast). -/
def i64_of_u64 (n : Nat) : Int :=
  if n % 2 ^ 64 < 2 ^ 63 then (n % 2 ^ 64 : Int) else (n % 2 ^ 64 : Int) - 2 ^ 64

/-- `WireguardAllowedIpAttr` : one attribute of an allowed-IP entry. -/
inductive WireguardAllowedIpAttr
  | Unspec (bytes : List Nat)
  | Family (fam : WireguardAddressFamily)
  | IpAddr (addr : IpAddr)
  | Cidr (prefix_length : Nat)

/-- `WireguardAllowedIp` : a list of allowed-IP attributes (tuple struct
field `.0` named `attrs`). -/
structure WireguardAllowedIp where
  attrs : List WireguardAllowedIpAttr

/-- `WireguardPeerAttribute` : one attribute of a peer's wire record. -/
inductive WireguardPeerAttribute
  | Unspec (bytes : List Nat)
  | Flags (flags : Nat)
  | PublicKey (key : List Nat)
  | PresharedKey (key : List Nat)
  | Endpoint (addr : SocketAddr)
  | PersistentKeepalive (interval : Nat)
  | LastHandshake (time : WireguardTimeSpec)
  | RxBytes (n : Nat)
  | TxBytes (n : Nat)
  | AllowedIps (ips : List WireguardAllowedIp)
  | ProtocolVersion (v : Nat)

/-- `WireguardPeer` : a list of peer attributes (tuple struct field `.0`
named `attrs`). -/
structure WireguardPeer where
  attrs : List WireguardPeerAttribute

/-- `WireguardAttribute` : one attribute of a device's wire record. -/
inductive WireguardAttribute
  | Unspec (bytes : List Nat)
  | IfIndex (index : Nat)
  | IfName (name : String)
  | PrivateKey (key : List Nat)
  | PublicKey (key : List Nat)
  | Flags (flags : Nat)
  | ListenPort (port : Nat)
  | Fwmark (mark : Nat)
  | Peers (peers : List WireguardPeer)

/-- `WireguardAttribute::WG_KEY_LEN`. -/
def WireguardAttribute.WG_KEY_LEN : Nat := 32

/-- `WireguardMessage` : command plus attribute list. -/
structure WireguardMessage where
  cmd : WireguardCmd
  attributes : List WireguardAttribute

/-! ### Netlink envelope collaborator (`netlink_packet_core`,
`netlink_packet_generic`)

Only the envelope shapes matter to the orchestrator; header contents
other than the flags word are irrelevant to every claim and are elided. -/

/-- `NetlinkHeader`, reduced to the only field the crate writes. -/
structure NetlinkHeader where
  flags : Nat

instance : Inhabited NetlinkHeader := ⟨⟨0⟩⟩

/-- `netlink_packet_core::ErrorMessage`, opaque payload of an error reply. -/
structure ErrorMessage where
  code : Int

/-- `GenlMessage<WireguardMessage>`; `from_payload` keeps just the payload
(the generic header is derived from it and never read back). -/
structure GenlMessage where
  payload : WireguardMessage

/-- `NetlinkPayload<GenlMessage<WireguardMessage>>`. -/
inductive NetlinkPayload
  | Done
  | Error (err : ErrorMessage)
  | Noop
  | Overrun (bytes : List Nat)
  | InnerMessage (msg : GenlMessage)

/-- `NetlinkMessage<GenlMessage<WireguardMessage>>`. -/
structure NetlinkMessage where
  header : NetlinkHeader
  payload : NetlinkPayload

/-- `NetlinkMessage::from(GenlMessage::from_payload(..))` : default header,
inner-message payload. -/
def NetlinkMessage.fromGenl (g : GenlMessage) : NetlinkMessage :=
  ⟨default, .InnerMessage g⟩

/-- `netlink_packet_core::DecodeError`, opaque except for its display
text. -/
structure DecodeError where
  msg : String

/-- The transport submission error of `genetlink`, opaque except for its
display text. -/
structure TransportError where
  msg : String

/-- Netlink header flag constants used by the crate. -/
def NLM_F_REQUEST : Nat := 1

/-- `NLM_F_ACK` flag constant. -/
def NLM_F_ACK : Nat := 4

/-- `NLM_F_DUMP` flag constant (`NLM_F_ROOT | NLM_F_MATCH`). -/
def NLM_F_DUMP : Nat := 0x300

/-! ### Error model (`error.rs`) -/

/-- `ErrorKind` : the closed taxonomy of failure kinds. -/
inductive ErrorKind
  | Bug
  | NetlinkError
  | DecodeError
  | InvalidKey
deriving DecidableEq

/-- `WireguardError` : kind, message, optional offending wire envelope. -/
structure WireguardError where
  kind : ErrorKind
  msg : String
  netlink_msg : Option NetlinkMessage

/-- `WireguardError::new`. -/
def WireguardError.new (kind : ErrorKind) (msg : String)
    (netlink_msg : Option NetlinkMessage) : WireguardError :=
  ⟨kind, msg, netlink_msg⟩

/-! ### Key codec (`decode_key` in `parsed.rs`) -/

/-- Modelled from the spec: display text of the external base64 engine's
decode error (interpolated as the trailing part of the first
`decode_key` message; its exact content is a collaborator detail and is
not part of this core). -/
def b64DecodeErrDisplay : String := "invalid base64"

/-- `decode_key` : base64-decode a textual key and demand exactly 32
bytes; both failure modes produce an `InvalidKey` error naming the field
and the offending text. -/
def decode_key (prop_name : String) (key_str : String) :
    Except WireguardError (List Nat) :=
  match decodeB64 key_str.data with
  | none =>
    .error (WireguardError.new .InvalidKey
      ("Invalid " ++ prop_name ++ ": not valid base64 encoded string " ++
        key_str ++ ": " ++ b64DecodeErrDisplay) none)
  | some key =>
    if key.length ≠ WireguardAttribute.WG_KEY_LEN then
      .error (WireguardError.new .InvalidKey
        ("Invalid " ++ prop_name ++ ": current length " ++
          toString key.length ++ ", but expecting " ++
          toString WireguardAttribute.WG_KEY_LEN ++
          " length of u8 encoded base64 string, " ++ key_str) none)
    else
      .ok key

/-! ### Allowed-IP translator (`peer_parsed.rs`) -/

/-- `WireguardIpAddress` : one CIDR route permitted for a peer. -/
structure WireguardIpAddress where
  prefix_length : Nat
  ip_addr : IpAddr

/-- `TryFrom<&WireguardAllowedIp> for WireguardIpAddress` : fold the entry's
attributes into the latest IP address and prefix length seen, then demand
both; the family attribute is explicitly ignored. -/
def WireguardIpAddress.tryFromAllowedIp (a : WireguardAllowedIp) :
    Except WireguardError WireguardIpAddress :=
  let st := a.attrs.foldl
    (fun (st : Option IpAddr × Option Nat) attr =>
      match attr with
      | .IpAddr v => (some v, st.2)
      | .Cidr v => (st.1, some v)
      | .Family _ => st
      | _ => st)  -- log::debug, unsupported attribute
    (none, none)
  match st.1 with
  | some ip_addr =>
    match st.2 with
    | some prefix_length => .ok ⟨prefix_length, ip_addr⟩
    | none =>
      .error (WireguardError.new .DecodeError
        "WireguardAllowedIp does not have WireguardAllowedIpAttr::Cidr defined"
        none)
  | none =>
    .error (WireguardError.new .DecodeError
      "WireguardAllowedIp does not have WireguardAllowedIpAttr::IpAddr defined"
      none)

/-- `From<&WireguardIpAddress> for Vec<WireguardAllowedIpAttr>` : fixed
order prefix length, family (derived from the address), address. -/
def WireguardIpAddress.toAttrs (ip : WireguardIpAddress) :
    List WireguardAllowedIpAttr :=
  [.Cidr ip.prefix_length,
   if ip.ip_addr.is_ipv4 then .Family .Ipv4 else .Family .Ipv6,
   .IpAddr ip.ip_addr]

/-! ### Peer translator (`peer_parsed.rs`) -/

/-- `WireguardPeerParsed` : the flat peer configuration record. -/
structure WireguardPeerParsed where
  endpoint : Option SocketAddr
  public_key : Option String
  preshared_key : Option String
  persistent_keepalive : Option Nat
  last_handshake : Option Duration
  rx_bytes : Option Nat
  tx_bytes : Option Nat
  allowed_ips : Option (List WireguardIpAddress)
  protocol_version : Option Nat

/-- `Default::default()` : every field absent. -/
instance : Inhabited WireguardPeerParsed :=
  ⟨⟨none, none, none, none, none, none, none, none, none⟩⟩

/-- Shadow struct `_WireguardPeerParsed` used by the `Debug` impl, with the
pre-shared key field already substituted. -/
structure _WireguardPeerParsed where
  endpoint : Option SocketAddr
  public_key : Option String
  preshared_key : Option String
  persistent_keepalive : Option Nat
  last_handshake : Option Duration
  rx_bytes : Option Nat
  tx_bytes : Option Nat
  allowed_ips : Option (List WireguardIpAddress)
  protocol_version : Option Nat

/-- `Debug for WireguardPeerParsed` : the rendering delegates to the derived
rendering of this view, in which a present pre-shared key is replaced by
the fixed placeholder. -/
def WireguardPeerParsed.debugView (p : WireguardPeerParsed) : _WireguardPeerParsed :=
  ⟨p.endpoint, p.public_key,
   if p.preshared_key.isSome then some "(hidden)" else none,
   p.persistent_keepalive, p.last_handshake, p.rx_bytes, p.tx_bytes,
   p.allowed_ips, p.protocol_version⟩

/-- The allowed-IP loop in `From<WireguardPeer>` : decode each entry,
keeping successes in order and skipping failures (with a warning). -/
def collectIps : List WireguardAllowedIp → List WireguardIpAddress
  | [] => []
  | wg_ip :: rest =>
    match WireguardIpAddress.tryFromAllowedIp wg_ip with
    | .ok i => i :: collectIps rest
    | .error _ => collectIps rest  -- log::warn, entry skipped

/-- Loop body of `From<WireguardPeer> for WireguardPeerParsed`.  Note the
upper bound on the nanosecond field is `u32::MAX` (the cast-safety check
of the source), not one second's worth of nanoseconds; `Duration::new`
normalizes any surplus. -/
def WireguardPeerParsed.applyAttr (ret : WireguardPeerParsed)
    (attr : WireguardPeerAttribute) : WireguardPeerParsed :=
  match attr with
  | .PublicKey v => { ret with public_key := some (b64encode v) }
  | .PresharedKey v =>
    if v.all (fun i => i == 0) then { ret with preshared_key := none }
    else { ret with preshared_key := some (b64encode v) }
  | .Endpoint v => { ret with endpoint := some v }
  | .PersistentKeepalive v => { ret with persistent_keepalive := some v }
  | .LastHandshake v =>
    if v.seconds = 0 ∧ v.nano_seconds = 0 then
      { ret with last_handshake := none }
    else if 0 ≤ v.seconds ∧ 0 ≤ v.nano_seconds ∧
        v.nano_seconds.toNat < 4294967295 then
      let d := Duration.new v.seconds.toNat v.nano_seconds.toNat
      { ret with last_handshake := some d }
    else ret  -- log::warn, invalid handshake time ignored
  | .RxBytes v => { ret with rx_bytes := some v }
  | .TxBytes v => { ret with tx_bytes := some v }
  | .ProtocolVersion v => { ret with protocol_version := some v }
  | .AllowedIps wg_ips => { ret with allowed_ips := some (collectIps wg_ips) }
  | _ => ret  -- log::debug, unsupported attribute

/-- `From<WireguardPeer> for WireguardPeerParsed`. -/
def WireguardPeerParsed.ofPeer (attrs : WireguardPeer) : WireguardPeerParsed :=
  attrs.attrs.foldl WireguardPeerParsed.applyAttr default

/-- The `if let Some(v) = field` emission step: one attribute per present
field, nothing for an absent one. -/
def optList {α β : Type} (o : Option α) (f : α → β) : List β :=
  match o with
  | some v => [f v]
  | none => []

/-- A key field's emission step: decode through the key codec, propagating
its error. -/
def keySeg {α : Type} (prop_name : String) (o : Option String)
    (mk : List Nat → α) : Except WireguardError (List α) :=
  match o with
  | none => .ok []
  | some v =>
    match decode_key prop_name v with
    | .ok k => .ok [mk k]
    | .error e => .error e

/-- `WireguardPeerParsed::build` : emit one attribute per present field in
declaration order; key fields pass through the key codec. -/
def WireguardPeerParsed.build (p : WireguardPeerParsed) :
    Except WireguardError WireguardPeer := do
  let pk ← keySeg "peer.public_key" p.public_key WireguardPeerAttribute.PublicKey
  let psk ← keySeg "peer.preshared_key" p.preshared_key
    WireguardPeerAttribute.PresharedKey
  pure ⟨optList p.endpoint WireguardPeerAttribute.Endpoint ++ pk ++ psk ++
    optList p.persistent_keepalive WireguardPeerAttribute.PersistentKeepalive ++
    optList p.last_handshake
      (fun v => .LastHandshake ⟨i64_of_u64 v.secs, (v.nanos : Int)⟩) ++
    optList p.rx_bytes WireguardPeerAttribute.RxBytes ++
    optList p.tx_bytes WireguardPeerAttribute.TxBytes ++
    optList p.allowed_ips
      (fun ips => .AllowedIps (ips.map fun ip => ⟨ip.toAttrs⟩)) ++
    optList p.protocol_version WireguardPeerAttribute.ProtocolVersion⟩

/-! ### Device translator (`parsed.rs`) -/

/-- `WireguardParsed` : the flat device configuration record. -/
structure WireguardParsed where
  iface_name : Option String
  iface_index : Option Nat
  public_key : Option String
  private_key : Option String
  listen_port : Option Nat
  fwmark : Option Nat
  peers : Option (List WireguardPeerParsed)

/-- `Default::default()` : every field absent. -/
instance : Inhabited WireguardParsed :=
  ⟨⟨none, none, none, none, none, none, none⟩⟩

/-- Shadow struct `_WireguardParsed` used by the `Debug` impl, with the
private key field already substituted. -/
structure _WireguardParsed where
  iface_name : Option String
  iface_index : Option Nat
  public_key : Option String
  private_key : Option String
  listen_port : Option Nat
  fwmark : Option Nat
  peers : Option (List WireguardPeerParsed)

/-- `Debug for WireguardParsed` : the rendering delegates to the derived
rendering of this view, in which a present private key is replaced by the
fixed placeholder. -/
def WireguardParsed.debugView (p : WireguardParsed) : _WireguardParsed :=
  ⟨p.iface_name, p.iface_index, p.public_key,
   if p.private_key.isSome then some "(hidden)" else none,
   p.listen_port, p.fwmark, p.peers⟩

/-- Loop body of `From<WireguardMessage> for WireguardParsed`. -/
def WireguardParsed.applyAttr (ret : WireguardParsed)
    (attr : WireguardAttribute) : WireguardParsed :=
  match attr with
  | .IfName v => { ret with iface_name := some v }
  | .IfIndex v => { ret with iface_index := some v }
  | .PrivateKey v => { ret with private_key := some (b64encode v) }
  | .PublicKey v => { ret with public_key := some (b64encode v) }
  | .ListenPort v => { ret with listen_port := some v }
  | .Fwmark v => { ret with fwmark := some v }
  | .Peers peers =>
    { ret with peers := some (peers.map WireguardPeerParsed.ofPeer) }
  | _ => ret  -- log::debug, unsupported attribute

/-- `From<WireguardMessage> for WireguardParsed`. -/
def WireguardParsed.ofMessage (msg : WireguardMessage) : WireguardParsed :=
  msg.attributes.foldl WireguardParsed.applyAttr default

/-- The peer loop of `WireguardParsed::build` : build each peer, the first
error short-circuits. -/
def buildPeers : List WireguardPeerParsed → Except WireguardError (List WireguardPeer)
  | [] => .ok []
  | p :: rest =>
    match p.build with
    | .error e => .error e
    | .ok w =>
      match buildPeers rest with
      | .error e => .error e
      | .ok ws => .ok (w :: ws)

/-- `WireguardParsed::build` : emit attributes in field order, peers last,
and stamp the message with the given command. -/
def WireguardParsed.build (p : WireguardParsed) (cmd : WireguardCmd) :
    Except WireguardError WireguardMessage := do
  let pk ← keySeg "public_key" p.public_key WireguardAttribute.PublicKey
  let sk ← keySeg "private_key" p.private_key WireguardAttribute.PrivateKey
  let peers ← match p.peers with
    | none => Except.ok ([] : List WireguardAttribute)
    | some ps =>
      match buildPeers ps with
      | .ok ws => .ok [WireguardAttribute.Peers ws]
      | .error e => .error e
  pure ⟨cmd,
    optList p.iface_name WireguardAttribute.IfName ++
    optList p.iface_index WireguardAttribute.IfIndex ++ pk ++ sk ++
    optList p.listen_port WireguardAttribute.ListenPort ++
    optList p.fwmark WireguardAttribute.Fwmark ++ peers⟩

/-! ### Request/reply orchestrator (`handle.rs`)

The generic-netlink transport is a collaborator: a function from the
outbound envelope to either a submission error or the reply stream, here a
finite list of framed-or-failed reply envelopes. -/

/-- `Debug` text of the opaque netlink error payload (collaborator
detail, only interpolated into messages). -/
def ErrorMessage.debugText (e : ErrorMessage) : String :=
  "ErrorMessage code " ++ toString e.code

/-- `Debug` text of a netlink payload (collaborator detail, only
interpolated into messages). -/
def NetlinkPayload.debugText : NetlinkPayload → String
  | .Done => "Done"
  | .Error e => "Error(" ++ e.debugText ++ ")"
  | .Noop => "Noop"
  | .Overrun _ => "Overrun"
  | .InnerMessage _ => "InnerMessage"

/-- The per-item classification closure inside `parse_nl_msg_stream` :
an inner message is unwrapped, an error payload becomes `NetlinkError`
carrying the reply envelope, any other payload becomes `Bug` carrying the
reply envelope, and a framing failure becomes `DecodeError` carrying the
original outbound envelope. -/
def classify_reply (nl_msg : NetlinkMessage)
    (reply : Except DecodeError NetlinkMessage) :
    Except WireguardError WireguardMessage :=
  match reply with
  | .ok reply_msg =>
    match reply_msg.payload with
    | .InnerMessage genl_msg => .ok genl_msg.payload
    | .Error err =>
      .error (WireguardError.new .NetlinkError
        ("netlink error: " ++ err.debugText)
        (some ⟨reply_msg.header, .Error err⟩))
    | p =>
      .error (WireguardError.new .Bug
        ("Unexpected NetlinkPayload type: " ++ p.debugText)
        (some ⟨reply_msg.header, p⟩))
  | .error e =>
    .error (WireguardError.new .DecodeError
      ("netlink decode error: " ++ e.msg) (some nl_msg))

/-- `parse_nl_msg_stream` : map the classification over the reply stream,
preserving order. -/
def parse_nl_msg_stream (nl_msg : NetlinkMessage)
    (stream : List (Except DecodeError NetlinkMessage)) :
    List (Except WireguardError WireguardMessage) :=
  stream.map (classify_reply nl_msg)

/-- The transport collaborator (`GenetlinkHandle::request`). -/
def Transport : Type :=
  NetlinkMessage → Except TransportError (List (Except DecodeError NetlinkMessage))

/-- `WireguardHandle` : a handle to the shared transport channel. -/
structure WireguardHandle where
  handle : Transport

/-- `WireguardHandle::request` : wrap the message in a control envelope
with the given flags, submit, and classify the reply stream; a submission
failure is a `NetlinkError`. -/
def WireguardHandle.request (h : WireguardHandle) (nl_header_flags : Nat)
    (message : WireguardMessage) :
    Except WireguardError (List (Except WireguardError WireguardMessage)) :=
  let nl_msg : NetlinkMessage := ⟨⟨nl_header_flags⟩, .InnerMessage ⟨message⟩⟩
  match h.handle nl_msg with
  | .ok stream => .ok (parse_nl_msg_stream nl_msg stream)
  | .error e =>
    .error (WireguardError.new .NetlinkError
      ("Netlink request failed: " ++ e.msg) (some nl_msg))

/-- `WireguardHandle::get_by_name` : build a `GetDevice` request carrying
only the interface name, submit with request/ack/dump flags, and decide on
the first reply item. -/
def WireguardHandle.get_by_name (h : WireguardHandle) (iface_name : String) :
    Except WireguardError WireguardParsed :=
  match ({ (default : WireguardParsed) with
      iface_name := some iface_name }).build .GetDevice with
  | .error e => .error e
  | .ok msg =>
    match h.request (NLM_F_REQUEST ||| NLM_F_ACK ||| NLM_F_DUMP) msg with
    | .error e => .error e
    | .ok stream =>
      match stream.head? with
      | none =>
        .error (WireguardError.new .Bug
          "Got no reply from kernel for request"
          (some (NetlinkMessage.fromGenl ⟨msg⟩)))
      | some reply => reply.map WireguardParsed.ofMessage

/-- `WireguardHandle::set` : build a `SetDevice` request, submit with
request/ack flags, and decide on the first reply item: no reply or a
successful first reply is success, a failed first reply is returned. -/
def WireguardHandle.set (h : WireguardHandle) (parsed : WireguardParsed) :
    Except WireguardError Unit :=
  match parsed.build .SetDevice with
  | .error e => .error e
  | .ok msg =>
    match h.request (NLM_F_REQUEST ||| NLM_F_ACK) msg with
    | .error e => .error e
    | .ok stream =>
      match stream.head? with
      | none => .ok ()
      | some (.ok _) => .ok ()
      | some (.error e) => .error e

/-! ### Fold characterization: each parsed field holds the decoded value
of the last effective occurrence of its attribute -/

/-- The value contributed by the last element of `l` that `g` accepts. -/
def lastOcc {α β : Type} (g : α → Option β) : List α → Option β
  | [] => none
  | a :: l =>
    match lastOcc g l with
    | some v => some v
    | none => g a

/-- One set-or-keep fold step: replace the accumulator when `g` accepts
the element, keep it otherwise. -/
def setKeep {α β : Type} (g : α → Option β) (acc : β) (a : α) : β :=
  match g a with
  | some v => v
  | none => acc

theorem setKeep_eq_getD {α β : Type} (g : α → Option β) (acc : β) (a : α) :
    setKeep g acc a = (g a).getD acc := by
  cases h : g a <;> simp [setKeep, h]

theorem foldl_setKeep_eq_lastOcc {α β : Type} (g : α → Option β) :
    ∀ (l : List α) (init : β), l.foldl (setKeep g) init = (lastOcc g l).getD init
  | [], _ => rfl
  | a :: l, init => by
    have ih := foldl_setKeep_eq_lastOcc g l (setKeep g init a)
    simp only [List.foldl_cons, ih, lastOcc]
    cases h : lastOcc g l with
    | some v => simp
    | none => simp [setKeep_eq_getD]

theorem lastOcc_eq_none {α β : Type} (g : α → Option β) :
    ∀ (l : List α), lastOcc g l = none ↔ ∀ a ∈ l, g a = none
  | [] => by simp [lastOcc]
  | a :: l => by
    have ih := lastOcc_eq_none g l
    simp only [lastOcc, List.mem_cons]
    cases h : lastOcc g l with
    | some v =>
      simp only [reduceCtorEq, false_iff]
      intro hall
      exact absurd (ih.mpr fun x hx => hall x (Or.inr hx)) (by simp [h])
    | none =>
      constructor
      · intro hga x hx
        rcases hx with rfl | hx
        · exact hga
        · exact (ih.mp h) x hx
      · intro hall
        exact hall a (Or.inl rfl)

/-- Per-field decoders of device attributes: `some new_field_value` when
the attribute variant targets the field, `none` otherwise. -/
def gIfaceName : WireguardAttribute → Option (Option String)
  | .IfName v => some (some v)
  | _ => none

/-- Field decoder for the interface index. -/
def gIfaceIndex : WireguardAttribute → Option (Option Nat)
  | .IfIndex v => some (some v)
  | _ => none

/-- Field decoder for the device public key. -/
def gDevPublicKey : WireguardAttribute → Option (Option String)
  | .PublicKey v => some (some (b64encode v))
  | _ => none

/-- Field decoder for the device private key. -/
def gDevPrivateKey : WireguardAttribute → Option (Option String)
  | .PrivateKey v => some (some (b64encode v))
  | _ => none

/-- Field decoder for the listen port. -/
def gListenPort : WireguardAttribute → Option (Option Nat)
  | .ListenPort v => some (some v)
  | _ => none

/-- Field decoder for the fwmark. -/
def gFwmark : WireguardAttribute → Option (Option Nat)
  | .Fwmark v => some (some v)
  | _ => none

/-- Field decoder for the peer list. -/
def gPeers : WireguardAttribute → Option (Option (List WireguardPeerParsed))
  | .Peers peers => some (some (peers.map WireguardPeerParsed.ofPeer))
  | _ => none

theorem foldl_applyAttr_device :
    ∀ (attrs : List WireguardAttribute) (s : WireguardParsed),
      attrs.foldl WireguardParsed.applyAttr s =
        ⟨attrs.foldl (setKeep gIfaceName) s.iface_name,
         attrs.foldl (setKeep gIfaceIndex) s.iface_index,
         attrs.foldl (setKeep gDevPublicKey) s.public_key,
         attrs.foldl (setKeep gDevPrivateKey) s.private_key,
         attrs.foldl (setKeep gListenPort) s.listen_port,
         attrs.foldl (setKeep gFwmark) s.fwmark,
         attrs.foldl (setKeep gPeers) s.peers⟩
  | [], _ => rfl
  | a :: attrs, s => by
    have ih := foldl_applyAttr_device attrs
    cases a <;>
      simp only [List.foldl_cons, WireguardParsed.applyAttr, setKeep,
        gIfaceName, gIfaceIndex, gDevPublicKey, gDevPrivateKey, gListenPort,
        gFwmark, gPeers] <;>
      exact ih _

/-- Field decoder for the peer endpoint. -/
def gEndpoint : WireguardPeerAttribute → Option (Option SocketAddr)
  | .Endpoint v => some (some v)
  | _ => none

/-- Field decoder for the peer public key. -/
def gPeerPublicKey : WireguardPeerAttribute → Option (Option String)
  | .PublicKey v => some (some (b64encode v))
  | _ => none

/-- Field decoder for the pre-shared key, with the all-zero
normalization: a zero key decodes to the absent state. -/
def gPresharedKey : WireguardPeerAttribute → Option (Option String)
  | .PresharedKey v =>
    some (if v.all (fun i => i == 0) then none else some (b64encode v))
  | _ => none

/-- Field decoder for the keepalive interval. -/
def gKeepalive : WireguardPeerAttribute → Option (Option Nat)
  | .PersistentKeepalive v => some (some v)
  | _ => none

/-- Field decoder for the last-handshake time: a zero timestamp decodes
to the absent state, a representable timestamp to a duration, and any
other timestamp is ineffective (the occurrence is dropped). -/
def gLastHandshake : WireguardPeerAttribute → Option (Option Duration)
  | .LastHandshake v =>
    if v.seconds = 0 ∧ v.nano_seconds = 0 then some none
    else if 0 ≤ v.seconds ∧ 0 ≤ v.nano_seconds ∧
        v.nano_seconds.toNat < 4294967295 then
      some (some (Duration.new v.seconds.toNat v.nano_seconds.toNat))
    else none
  | _ => none

/-- Field decoder for the received-byte counter. -/
def gRxBytes : WireguardPeerAttribute → Option (Option Nat)
  | .RxBytes v => some (some v)
  | _ => none

/-- Field decoder for the transmitted-byte counter. -/
def gTxBytes : WireguardPeerAttribute → Option (Option Nat)
  | .TxBytes v => some (some v)
  | _ => none

/-- Field decoder for the allowed-IP list. -/
def gAllowedIps : WireguardPeerAttribute → Option (Option (List WireguardIpAddress))
  | .AllowedIps wg_ips => some (some (collectIps wg_ips))
  | _ => none

/-- Field decoder for the protocol version. -/
def gProtocolVersion : WireguardPeerAttribute → Option (Option Nat)
  | .ProtocolVersion v => some (some v)
  | _ => none

theorem foldl_applyAttr_peer :
    ∀ (attrs : List WireguardPeerAttribute) (s : WireguardPeerParsed),
      attrs.foldl WireguardPeerParsed.applyAttr s =
        ⟨attrs.foldl (setKeep gEndpoint) s.endpoint,
         attrs.foldl (setKeep gPeerPublicKey) s.public_key,
         attrs.foldl (setKeep gPresharedKey) s.preshared_key,
         attrs.foldl (setKeep gKeepalive) s.persistent_keepalive,
         attrs.foldl (setKeep gLastHandshake) s.last_handshake,
         attrs.foldl (setKeep gRxBytes) s.rx_bytes,
         attrs.foldl (setKeep gTxBytes) s.tx_bytes,
         attrs.foldl (setKeep gAllowedIps) s.allowed_ips,
         attrs.foldl (setKeep gProtocolVersion) s.protocol_version⟩
  | [], _ => rfl
  | a :: attrs, s => by
    have ih := foldl_applyAttr_peer attrs
    cases a with
    | PresharedKey v =>
      simp only [List.foldl_cons, WireguardPeerParsed.applyAttr, setKeep,
        gEndpoint, gPeerPublicKey, gPresharedKey, gKeepalive, gLastHandshake,
        gRxBytes, gTxBytes, gAllowedIps, gProtocolVersion]
      by_cases hz : v.all (fun i => i == 0) = true
      · simp only [if_pos hz]; exact ih _
      · simp only [if_neg hz]; exact ih _
    | LastHandshake v =>
      simp only [List.foldl_cons, WireguardPeerParsed.applyAttr, setKeep,
        gEndpoint, gPeerPublicKey, gPresharedKey, gKeepalive, gLastHandshake,
        gRxBytes, gTxBytes, gAllowedIps, gProtocolVersion]
      by_cases h1 : v.seconds = 0 ∧ v.nano_seconds = 0
      · simp only [if_pos h1]; exact ih _
      · by_cases h2 : 0 ≤ v.seconds ∧ 0 ≤ v.nano_seconds ∧
            v.nano_seconds.toNat < 4294967295
        · simp only [if_neg h1, if_pos h2]; exact ih _
        · simp only [if_neg h1, if_neg h2]; exact ih _
    | Unspec v =>
      simp only [List.foldl_cons, WireguardPeerParsed.applyAttr, setKeep,
        gEndpoint, gPeerPublicKey, gPresharedKey, gKeepalive, gLastHandshake,
        gRxBytes, gTxBytes, gAllowedIps, gProtocolVersion]
      exact ih _
    | Flags v =>
      simp only [List.foldl_cons, WireguardPeerParsed.applyAttr, setKeep,
        gEndpoint, gPeerPublicKey, gPresharedKey, gKeepalive, gLastHandshake,
        gRxBytes, gTxBytes, gAllowedIps, gProtocolVersion]
      exact ih _
    | PublicKey v =>
      simp only [List.foldl_cons, WireguardPeerParsed.applyAttr, setKeep,
        gEndpoint, gPeerPublicKey, gPresharedKey, gKeepalive, gLastHandshake,
        gRxBytes, gTxBytes, gAllowedIps, gProtocolVersion]
      exact ih _
    | Endpoint v =>
      simp only [List.foldl_cons, WireguardPeerParsed.applyAttr, setKeep,
        gEndpoint, gPeerPublicKey, gPresharedKey, gKeepalive, gLastHandshake,
        gRxBytes, gTxBytes, gAllowedIps, gProtocolVersion]
      exact ih _
    | PersistentKeepalive v =>
      simp only [List.foldl_cons, WireguardPeerParsed.applyAttr, setKeep,
        gEndpoint, gPeerPublicKey, gPresharedKey, gKeepalive, gLastHandshake,
        gRxBytes, gTxBytes, gAllowedIps, gProtocolVersion]
      exact ih _
    | RxBytes v =>
      simp only [List.foldl_cons, WireguardPeerParsed.applyAttr, setKeep,
        gEndpoint, gPeerPublicKey, gPresharedKey, gKeepalive, gLastHandshake,
        gRxBytes, gTxBytes, gAllowedIps, gProtocolVersion]
      exact ih _
    | TxBytes v =>
      simp only [List.foldl_cons, WireguardPeerParsed.applyAttr, setKeep,
        gEndpoint, gPeerPublicKey, gPresharedKey, gKeepalive, gLastHandshake,
        gRxBytes, gTxBytes, gAllowedIps, gProtocolVersion]
      exact ih _
    | AllowedIps v =>
      simp only [List.foldl_cons, WireguardPeerParsed.applyAttr, setKeep,
        gEndpoint, gPeerPublicKey, gPresharedKey, gKeepalive, gLastHandshake,
        gRxBytes, gTxBytes, gAllowedIps, gProtocolVersion]
      exact ih _
    | ProtocolVersion v =>
      simp only [List.foldl_cons, WireguardPeerParsed.applyAttr, setKeep,
        gEndpoint, gPeerPublicKey, gPresharedKey, gKeepalive, gLastHandshake,
        gRxBytes, gTxBytes, gAllowedIps, gProtocolVersion]
      exact ih _

theorem lastOcc_eq_some_mem {α β : Type} (g : α → Option β) :
    ∀ (l : List α) (x : β), lastOcc g l = some x → ∃ a ∈ l, g a = some x
  | [], _ => by
    intro h
    exact absurd h (by simp [lastOcc])
  | a :: l, x => by
    simp only [lastOcc]
    cases h : lastOcc g l with
    | some v =>
      intro hv
      obtain ⟨b, hb, hgb⟩ := lastOcc_eq_some_mem g l v h
      exact ⟨b, List.mem_cons_of_mem a hb, by rw [hgb, ← hv]⟩
    | none =>
      intro hga
      exact ⟨a, List.mem_cons_self a l, hga⟩

/-- Modelled from the claim's words (C10): the device record each of whose
fields holds the decoded value contributed by the last occurrence of its
attribute variant (an occurrence may contribute "absent"; an invalid
last-handshake occurrence contributes nothing). -/
def deviceLastSpec (m : WireguardMessage) : WireguardParsed :=
  ⟨(lastOcc gIfaceName m.attributes).getD none,
   (lastOcc gIfaceIndex m.attributes).getD none,
   (lastOcc gDevPublicKey m.attributes).getD none,
   (lastOcc gDevPrivateKey m.attributes).getD none,
   (lastOcc gListenPort m.attributes).getD none,
   (lastOcc gFwmark m.attributes).getD none,
   (lastOcc gPeers m.attributes).getD none⟩

/-- Modelled from the claim's words (C10): the peer record counterpart of
`deviceLastSpec`. -/
def peerLastSpec (p : WireguardPeer) : WireguardPeerParsed :=
  ⟨(lastOcc gEndpoint p.attrs).getD none,
   (lastOcc gPeerPublicKey p.attrs).getD none,
   (lastOcc gPresharedKey p.attrs).getD none,
   (lastOcc gKeepalive p.attrs).getD none,
   (lastOcc gLastHandshake p.attrs).getD none,
   (lastOcc gRxBytes p.attrs).getD none,
   (lastOcc gTxBytes p.attrs).getD none,
   (lastOcc gAllowedIps p.attrs).getD none,
   (lastOcc gProtocolVersion p.attrs).getD none⟩

/-- C10 (amended): decoding a device or peer wire record never fails, and
every parsed field holds the value contributed by the last *effective*
occurrence of its attribute variant — the last occurrence plainly for
every variant except a last-handshake occurrence with an invalid
timestamp, which contributes nothing and leaves earlier occurrences in
place (a pre-shared-key occurrence is always effective and may set the
field back to absent). -/
theorem duplicate_attributes_last_wins (m : WireguardMessage) (p : WireguardPeer) :
    WireguardParsed.ofMessage m = deviceLastSpec m ∧
    WireguardPeerParsed.ofPeer p = peerLastSpec p := by
  constructor
  · rw [WireguardParsed.ofMessage, foldl_applyAttr_device]
    simp only [deviceLastSpec, foldl_setKeep_eq_lastOcc]
    rfl
  · rw [WireguardPeerParsed.ofPeer, foldl_applyAttr_peer]
    simp only [peerLastSpec, foldl_setKeep_eq_lastOcc]
    rfl

/-- C10 counterexample: with a valid last-handshake occurrence followed by
an invalid one, the parsed field keeps the value of the *first*
occurrence, although the last occurrence on its own decodes to absent —
so the last occurrence does not overwrite the earlier one. -/
theorem duplicate_last_handshake_cex :
    (WireguardPeerParsed.ofPeer
        ⟨[.LastHandshake ⟨5, 0⟩, .LastHandshake ⟨-1, 0⟩]⟩).last_handshake =
      some ⟨5, 0⟩ ∧
    (WireguardPeerParsed.ofPeer
        ⟨[.LastHandshake ⟨-1, 0⟩]⟩).last_handshake = none := by
  exact ⟨rfl, rfl⟩

/-- C2 (amended): a zero last-handshake timestamp decodes to absent; a
timestamp with non-negative fields whose nanosecond field is below
`u32::MAX` (4294967295 — not one second's worth of nanoseconds) decodes
to the `Duration::new` normalization of the two fields; every other
timestamp is dropped and leaves the field absent, and peer decoding never
fails. -/
theorem last_handshake_decode (ts : WireguardTimeSpec) :
    (ts.seconds = 0 ∧ ts.nano_seconds = 0 →
      (WireguardPeerParsed.ofPeer ⟨[.LastHandshake ts]⟩).last_handshake = none) ∧
    (¬(ts.seconds = 0 ∧ ts.nano_seconds = 0) → 0 ≤ ts.seconds →
      0 ≤ ts.nano_seconds → ts.nano_seconds < 4294967295 →
      (WireguardPeerParsed.ofPeer ⟨[.LastHandshake ts]⟩).last_handshake =
        some (Duration.new ts.seconds.toNat ts.nano_seconds.toNat)) ∧
    (ts.seconds < 0 ∨ ts.nano_seconds < 0 ∨ 4294967295 ≤ ts.nano_seconds →
      (WireguardPeerParsed.ofPeer ⟨[.LastHandshake ts]⟩).last_handshake = none) := by
  refine ⟨?_, ?_, ?_⟩
  · intro h
    simp only [WireguardPeerParsed.ofPeer, List.foldl_cons, List.foldl_nil,
      WireguardPeerParsed.applyAttr]
    rw [if_pos h]
  · intro h1 h2 h3 h4
    simp only [WireguardPeerParsed.ofPeer, List.foldl_cons, List.foldl_nil,
      WireguardPeerParsed.applyAttr]
    rw [if_neg h1, if_pos ⟨h2, h3, by omega⟩]
  · intro h
    have h1 : ¬(ts.seconds = 0 ∧ ts.nano_seconds = 0) := by omega
    have h2 : ¬(0 ≤ ts.seconds ∧ 0 ≤ ts.nano_seconds ∧
        ts.nano_seconds.toNat < 4294967295) := by omega
    simp only [WireguardPeerParsed.ofPeer, List.foldl_cons, List.foldl_nil,
      WireguardPeerParsed.applyAttr]
    rw [if_neg h1, if_neg h2]
    rfl

/-- C2 witness: a plain five-second timestamp decodes to a present
five-second duration. -/
theorem last_handshake_decode_witness :
    (WireguardPeerParsed.ofPeer
        ⟨[.LastHandshake ⟨5, 0⟩]⟩).last_handshake = some (Duration.new 5 0) :=
  (last_handshake_decode ⟨5, 0⟩).2.1 (by decide) (by decide) (by decide) (by decide)

/-- C2 counterexample: a nanosecond field of exactly one second
(1 000 000 000 ≥ 1e9) does not decode to absent as the claim demands —
the code accepts it (the bound is `u32::MAX`) and normalizes it to one
whole second. -/
theorem last_handshake_nanos_cex :
    (WireguardPeerParsed.ofPeer
        ⟨[.LastHandshake ⟨0, 1000000000⟩]⟩).last_handshake = some ⟨1, 0⟩ ∧
    (WireguardPeerParsed.ofPeer
        ⟨[.LastHandshake ⟨0, 1000000000⟩]⟩).last_handshake ≠ none := by
  refine ⟨rfl, ?_⟩
  intro h
  rw [show (WireguardPeerParsed.ofPeer
      ⟨[.LastHandshake ⟨0, 1000000000⟩]⟩).last_handshake =
      some ⟨1, 0⟩ from rfl] at h
  exact Option.noConfusion h

/-- C4: a pre-shared-key wire attribute of 32 zero bytes decodes to the
absent state, never to a present all-zero key; any non-zero byte makes the
key present, encoding exactly the wire bytes. -/
theorem preshared_key_zero_norm (k : List Nat) (_hlen : k.length = 32) :
    ((∀ x ∈ k, x = 0) →
      (WireguardPeerParsed.ofPeer ⟨[.PresharedKey k]⟩).preshared_key = none) ∧
    ((∃ x ∈ k, x ≠ 0) →
      (WireguardPeerParsed.ofPeer ⟨[.PresharedKey k]⟩).preshared_key =
        some (b64encode k)) := by
  constructor
  · intro hall
    have hz : k.all (fun i => i == 0) = true := by
      simp only [List.all_eq_true, beq_iff_eq]
      exact hall
    simp only [WireguardPeerParsed.ofPeer, List.foldl_cons, List.foldl_nil,
      WireguardPeerParsed.applyAttr, hz, if_true]
  · intro ⟨x, hx, hxz⟩
    have hz : ¬(k.all (fun i => i == 0) = true) := by
      simp only [List.all_eq_true, beq_iff_eq]
      intro hall
      exact hxz (hall x hx)
    simp only [WireguardPeerParsed.ofPeer, List.foldl_cons, List.foldl_nil,
      WireguardPeerParsed.applyAttr]
    rw [if_neg hz]

/-- C4 witness: the all-zero 32-byte key decodes to absent, and the key
with one trailing 7 decodes to its encoding. -/
theorem preshared_key_zero_norm_witness :
    (WireguardPeerParsed.ofPeer
        ⟨[.PresharedKey (List.replicate 32 0)]⟩).preshared_key = none ∧
    (WireguardPeerParsed.ofPeer
        ⟨[.PresharedKey (List.replicate 31 0 ++ [7])]⟩).preshared_key =
      some (b64encode (List.replicate 31 0 ++ [7])) :=
  ⟨(preshared_key_zero_norm (List.replicate 32 0) (by decide)).1 (by decide),
   (preshared_key_zero_norm (List.replicate 31 0 ++ [7]) (by decide)).2
     ⟨7, by decide, by decide⟩⟩

/-- C7: the key decoder returns the original 32 bytes on the standard
encoding of a 32-byte value; it errs exactly when the text is not valid
base64 or the decoded length is not 32; and every error is an
`InvalidKey` whose message contains the field name and the offending
text. -/
theorem decode_key_contract (field s : String) (b : List Nat)
    (hlen : b.length = 32) (hb : ∀ x ∈ b, x < 256) :
    decode_key field (b64encode b) = .ok b ∧
    ((∃ k, decode_key field s = .ok k) ↔
      ∃ k, decodeB64 s.data = some k ∧ k.length = 32) ∧
    (∀ e, decode_key field s = .error e →
      e.kind = .InvalidKey ∧ field.data <:+: e.msg.data ∧ s.data <:+: e.msg.data) := by
  refine ⟨?_, ?_, ?_⟩
  · have hd : decodeB64 (b64encode b).data = some b := by
      show decodeB64 (encodeB64 b) = some b
      exact decodeB64_encodeB64 b hb
    simp only [decode_key, hd]
    rw [if_neg (by simp [hlen, WireguardAttribute.WG_KEY_LEN])]
  · cases hd : decodeB64 s.data with
    | none =>
      simp only [decode_key, hd]
      constructor
      · intro ⟨k, hk⟩
        exact absurd hk (by simp)
      · intro ⟨k, hk, _⟩
        exact absurd hk (by simp)
    | some k =>
      simp only [decode_key, hd]
      by_cases hk : k.length ≠ WireguardAttribute.WG_KEY_LEN
      · rw [if_pos hk]
        constructor
        · intro ⟨k', hk'⟩
          exact absurd hk' (by simp)
        · intro ⟨k', hk', hl'⟩
          rw [show k' = k from (Option.some.injEq _ _ ▸ hk').symm] at hl'
          exact absurd hl' (by simpa [WireguardAttribute.WG_KEY_LEN] using hk)
      · rw [if_neg hk]
        exact ⟨fun _ => ⟨k, rfl, by simpa [WireguardAttribute.WG_KEY_LEN] using hk⟩,
          fun _ => ⟨k, rfl⟩⟩
  · intro e he
    cases hd : decodeB64 s.data with
    | none =>
      simp only [decode_key, hd] at he
      cases he
      refine ⟨rfl, ?_, ?_⟩
      · exact ⟨"Invalid ".data,
          (": not valid base64 encoded string " ++ s ++ ": " ++
            b64DecodeErrDisplay).data,
          by simp [WireguardError.new, String.data_append]⟩
      · exact ⟨("Invalid " ++ field ++ ": not valid base64 encoded string ").data,
          (": " ++ b64DecodeErrDisplay).data,
          by simp [WireguardError.new, String.data_append]⟩
    | some k =>
      simp only [decode_key, hd] at he
      by_cases hk : k.length ≠ WireguardAttribute.WG_KEY_LEN
      · rw [if_pos hk] at he
        cases he
        refine ⟨rfl, ?_, ?_⟩
        · exact ⟨"Invalid ".data,
            (": current length " ++ toString k.length ++ ", but expecting " ++
              toString WireguardAttribute.WG_KEY_LEN ++
              " length of u8 encoded base64 string, " ++ s).data,
            by simp [WireguardError.new, String.data_append]⟩
        · exact ⟨("Invalid " ++ field ++ ": current length " ++
              toString k.length ++ ", but expecting " ++
              toString WireguardAttribute.WG_KEY_LEN ++
              " length of u8 encoded base64 string, ").data,
            ([] : List Char),
            by simp [WireguardError.new, String.data_append]⟩
      · rw [if_neg hk] at he
        exact absurd he (by simp)

/-- C7 witness: a concrete 32-byte key round-trips through the codec. -/
theorem decode_key_contract_witness :
    decode_key "public_key" (b64encode (List.replicate 32 7)) =
      .ok (List.replicate 32 7) :=
  (decode_key_contract "public_key" "x" (List.replicate 32 7)
    (by decide) (by decide)).1

/-- The two per-component decoders of an allowed-IP entry's fold. -/
def gAIpAddr : WireguardAllowedIpAttr → Option (Option IpAddr)
  | .IpAddr v => some (some v)
  | _ => none

/-- Component decoder for the prefix length. -/
def gACidr : WireguardAllowedIpAttr → Option (Option Nat)
  | .Cidr v => some (some v)
  | _ => none

theorem foldl_allowedIp :
    ∀ (attrs : List WireguardAllowedIpAttr) (st : Option IpAddr × Option Nat),
      attrs.foldl
        (fun (st : Option IpAddr × Option Nat) attr =>
          match attr with
          | .IpAddr v => (some v, st.2)
          | .Cidr v => (st.1, some v)
          | .Family _ => st
          | _ => st) st =
      (attrs.foldl (setKeep gAIpAddr) st.1, attrs.foldl (setKeep gACidr) st.2)
  | [], _ => rfl
  | a :: attrs, st => by
    have ih := foldl_allowedIp attrs
    cases a <;>
      simp only [List.foldl_cons, setKeep, gAIpAddr, gACidr] <;>
      exact ih _

theorem collectIps_eq_filterMap :
    ∀ ips, collectIps ips =
      ips.filterMap fun i => (WireguardIpAddress.tryFromAllowedIp i).toOption
  | [] => rfl
  | ip :: rest => by
    have ih := collectIps_eq_filterMap rest
    simp only [collectIps, List.filterMap_cons]
    cases h : WireguardIpAddress.tryFromAllowedIp ip with
    | ok v => simp [Except.toOption, h, ih]
    | error e => simp [Except.toOption, h, ih]

/-- C8: decoding one allowed-IP entry succeeds exactly when it carries
both an IP-address attribute and a prefix-length attribute (the family
attribute is never required); failed entries are skipped without failing
the peer, so a present allowed-IPs attribute always yields a present list
(the decodable entries, in order — empty if none decode), while an absent
attribute leaves the list absent. -/
theorem allowed_ip_decode (a : WireguardAllowedIp)
    (ips : List WireguardAllowedIp) :
    ((WireguardIpAddress.tryFromAllowedIp a).isOk = true ↔
      (∃ v, WireguardAllowedIpAttr.IpAddr v ∈ a.attrs) ∧
      (∃ v, WireguardAllowedIpAttr.Cidr v ∈ a.attrs)) ∧
    (WireguardPeerParsed.ofPeer ⟨[.AllowedIps ips]⟩).allowed_ips =
      some (ips.filterMap fun i =>
        (WireguardIpAddress.tryFromAllowedIp i).toOption) ∧
    (WireguardPeerParsed.ofPeer ⟨[]⟩).allowed_ips = none := by
  refine ⟨?_, ?_, rfl⟩
  · simp only [WireguardIpAddress.tryFromAllowedIp, foldl_allowedIp,
      foldl_setKeep_eq_lastOcc]
    cases hu : lastOcc gAIpAddr a.attrs with
    | none =>
      simp only [Option.getD_none]
      constructor
      · intro hok
        exact absurd hok (by simp [Except.isOk, Except.toBool])
      · intro ⟨⟨v, hv⟩, _⟩
        have := (lastOcc_eq_none gAIpAddr a.attrs).mp hu _ hv
        exact absurd this (by simp [gAIpAddr])
    | some o =>
      obtain ⟨x, hx, hgx⟩ := lastOcc_eq_some_mem gAIpAddr a.attrs o hu
      cases x with
      | IpAddr v =>
        have ho : o = some v := by
          simpa [gAIpAddr] using hgx.symm
        subst ho
        simp only [Option.getD_some]
        cases hc : lastOcc gACidr a.attrs with
        | none =>
          simp only [Option.getD_none]
          constructor
          · intro hok
            exact absurd hok (by simp [Except.isOk, Except.toBool])
          · intro ⟨_, ⟨w, hw⟩⟩
            have := (lastOcc_eq_none gACidr a.attrs).mp hc _ hw
            exact absurd this (by simp [gACidr])
        | some o2 =>
          obtain ⟨y, hy, hgy⟩ := lastOcc_eq_some_mem gACidr a.attrs o2 hc
          cases y with
          | Cidr w =>
            have ho2 : o2 = some w := by
              simpa [gACidr] using hgy.symm
            subst ho2
            simp only [Option.getD_some]
            exact ⟨fun _ => ⟨⟨v, hx⟩, ⟨w, hy⟩⟩,
              fun _ => by simp [Except.isOk, Except.toBool]⟩
          | Unspec bs => exact absurd hgy (by simp [gACidr])
          | Family f => exact absurd hgy (by simp [gACidr])
          | IpAddr u => exact absurd hgy (by simp [gACidr])
      | Unspec bs => exact absurd hgx (by simp [gAIpAddr])
      | Family f => exact absurd hgx (by simp [gAIpAddr])
      | Cidr w => exact absurd hgx (by simp [gAIpAddr])
  · simp only [WireguardPeerParsed.ofPeer, List.foldl_cons, List.foldl_nil,
      WireguardPeerParsed.applyAttr, collectIps_eq_filterMap]

/-- C9: the debug rendering substitutes the fixed placeholder for a
present private key (and shows an absent one as absent), so renderings of
records differing only in the value of a present private key are
identical; the same holds for a peer's pre-shared key. -/
theorem debug_hides_secret_keys (p : WireguardParsed) (k1 k2 : String)
    (pp : WireguardPeerParsed) (s1 s2 : String) :
    ({ p with private_key := some k1 } : WireguardParsed).debugView.private_key =
      some "(hidden)" ∧
    ({ p with private_key := none } : WireguardParsed).debugView.private_key =
      none ∧
    ({ p with private_key := some k1 } : WireguardParsed).debugView =
      ({ p with private_key := some k2 } : WireguardParsed).debugView ∧
    ({ pp with preshared_key := some s1 } :
        WireguardPeerParsed).debugView.preshared_key = some "(hidden)" ∧
    ({ pp with preshared_key := none } :
        WireguardPeerParsed).debugView.preshared_key = none ∧
    ({ pp with preshared_key := some s1 } : WireguardPeerParsed).debugView =
      ({ pp with preshared_key := some s2 } : WireguardPeerParsed).debugView :=
  ⟨rfl, rfl, rfl, rfl, rfl, rfl⟩

/-- C6: the per-item classification of reply envelopes is exhaustive: an
inner device message is unwrapped as success; an error payload yields
`NetlinkError` carrying the reply envelope; each of the remaining payload
shapes yields `Bug` carrying the reply envelope; a framing failure yields
`DecodeError` carrying the original outbound envelope. -/
theorem classify_reply_exhaustive (nl_msg : NetlinkMessage) :
    (∀ (hdr : NetlinkHeader) (g : GenlMessage),
      classify_reply nl_msg (.ok ⟨hdr, .InnerMessage g⟩) = .ok g.payload) ∧
    (∀ (hdr : NetlinkHeader) (err : ErrorMessage),
      ∃ e, classify_reply nl_msg (.ok ⟨hdr, .Error err⟩) = .error e ∧
        e.kind = .NetlinkError ∧ e.netlink_msg = some ⟨hdr, .Error err⟩) ∧
    (∀ hdr : NetlinkHeader,
      ∃ e, classify_reply nl_msg (.ok ⟨hdr, .Done⟩) = .error e ∧
        e.kind = .Bug ∧ e.netlink_msg = some ⟨hdr, .Done⟩) ∧
    (∀ hdr : NetlinkHeader,
      ∃ e, classify_reply nl_msg (.ok ⟨hdr, .Noop⟩) = .error e ∧
        e.kind = .Bug ∧ e.netlink_msg = some ⟨hdr, .Noop⟩) ∧
    (∀ (hdr : NetlinkHeader) (bs : List Nat),
      ∃ e, classify_reply nl_msg (.ok ⟨hdr, .Overrun bs⟩) = .error e ∧
        e.kind = .Bug ∧ e.netlink_msg = some ⟨hdr, .Overrun bs⟩) ∧
    (∀ de : DecodeError,
      ∃ e, classify_reply nl_msg (.error de) = .error e ∧
        e.kind = .DecodeError ∧ e.netlink_msg = some nl_msg) :=
  ⟨fun _ _ => rfl,
   fun _ _ => ⟨_, rfl, rfl, rfl⟩,
   fun _ => ⟨_, rfl, rfl, rfl⟩,
   fun _ => ⟨_, rfl, rfl, rfl⟩,
   fun _ _ => ⟨_, rfl, rfl, rfl⟩,
   fun _ => ⟨_, rfl, rfl, rfl⟩⟩

/-- A transport that answers every submission with a fixed reply stream. -/
def constTransport (raws : List (Except DecodeError NetlinkMessage)) :
    WireguardHandle :=
  ⟨fun _ => .ok raws⟩

/-- The outbound envelope `get_by_name` submits for an interface name. -/
def getRequestEnvelope (iface_name : String) : NetlinkMessage :=
  ⟨⟨NLM_F_REQUEST ||| NLM_F_ACK ||| NLM_F_DUMP⟩,
   .InnerMessage ⟨⟨.GetDevice, [.IfName iface_name]⟩⟩⟩

/-- C5: `get_by_name` decides on the first item of the classified reply
sequence only: an empty sequence is a `Bug`; otherwise the first item's
classification is returned as-is on error and translated through the
device translator on success, regardless of all later items. -/
theorem get_by_name_first_item (iface_name : String)
    (r : Except DecodeError NetlinkMessage)
    (raws : List (Except DecodeError NetlinkMessage)) :
    (∃ e, (constTransport []).get_by_name iface_name = .error e ∧
      e.kind = .Bug) ∧
    (constTransport (r :: raws)).get_by_name iface_name =
      (classify_reply (getRequestEnvelope iface_name) r).map
        WireguardParsed.ofMessage :=
  ⟨⟨_, rfl, rfl⟩, rfl⟩

/-- The outbound envelope `set` submits for a built message. -/
def setRequestEnvelope (m : WireguardMessage) : NetlinkMessage :=
  ⟨⟨NLM_F_REQUEST ||| NLM_F_ACK⟩, .InnerMessage ⟨m⟩⟩

/-- C1 (amended): `set` decides on the first item of the classified reply
sequence only: an empty sequence is success, a successful first item is
success regardless of all later items (even later errors), and a failed
first item returns that error. -/
theorem set_first_item_only (cfg : WireguardParsed) (m : WireguardMessage)
    (hb : cfg.build .SetDevice = .ok m)
    (r : Except DecodeError NetlinkMessage)
    (raws : List (Except DecodeError NetlinkMessage)) :
    (constTransport []).set cfg = .ok () ∧
    (constTransport (r :: raws)).set cfg =
      (match classify_reply (setRequestEnvelope m) r with
       | .ok _ => .ok ()
       | .error e => .error e) := by
  constructor
  · simp only [WireguardHandle.set, hb, WireguardHandle.request, constTransport,
      parse_nl_msg_stream, List.map_nil, List.head?]
  · simp only [WireguardHandle.set, hb, WireguardHandle.request, constTransport,
      parse_nl_msg_stream, List.map_cons, List.head?, setRequestEnvelope]
    cases classify_reply ⟨⟨NLM_F_REQUEST ||| NLM_F_ACK⟩, .InnerMessage ⟨m⟩⟩ r <;>
      rfl

/-- C1 witness: with no reply `set` succeeds; with a single successful
reply it also succeeds, matching the first item's classification. -/
theorem set_first_item_only_witness :
    (constTransport []).set default = .ok () ∧
    (constTransport
        [Except.ok ⟨⟨0⟩, .InnerMessage ⟨⟨.GetDevice, []⟩⟩⟩]).set default =
      (match classify_reply (setRequestEnvelope ⟨.SetDevice, []⟩)
          (Except.ok ⟨⟨0⟩, .InnerMessage ⟨⟨.GetDevice, []⟩⟩⟩) with
       | .ok _ => .ok ()
       | .error e => .error e) :=
  set_first_item_only default ⟨.SetDevice, []⟩ rfl
    (Except.ok ⟨⟨0⟩, .InnerMessage ⟨⟨.GetDevice, []⟩⟩⟩) []

/-- A reply stream whose first item is a success and whose second item is
a protocol-level error envelope. -/
def cexReplyStream : List (Except DecodeError NetlinkMessage) :=
  [.ok ⟨⟨0⟩, .InnerMessage ⟨⟨.GetDevice, []⟩⟩⟩,
   .ok ⟨⟨0⟩, .Error ⟨-1⟩⟩]

/-- C1 counterexample: a reply sequence whose second item classifies as an
error still makes `set` return success — `set` does not consume the full
sequence and does not propagate an error sitting after the first item. -/
theorem set_full_sequence_cex :
    (constTransport cexReplyStream).set default = .ok () ∧
    ∃ e, (parse_nl_msg_stream (setRequestEnvelope ⟨.SetDevice, []⟩)
        cexReplyStream)[1]? = some (.error e) :=
  ⟨rfl, ⟨_, rfl⟩⟩

theorem decode_key_b64encode (name : String) (b : List Nat)
    (hlen : b.length = 32) (hb : ∀ x ∈ b, x < 256) :
    decode_key name (b64encode b) = .ok b := by
  have hd : decodeB64 (b64encode b).data = some b := decodeB64_encodeB64 b hb
  simp only [decode_key, hd]
  rw [if_neg (by simp [hlen, WireguardAttribute.WG_KEY_LEN])]

theorem keySeg_some_valid {α : Type} (name : String) (b : List Nat)
    (mk : List Nat → α) (hlen : b.length = 32) (hb : ∀ x ∈ b, x < 256) :
    keySeg name (some (b64encode b)) mk = .ok [mk b] := by
  simp [keySeg, decode_key_b64encode name b hlen hb]

theorem tryFrom_toAttrs (ip : WireguardIpAddress) :
    WireguardIpAddress.tryFromAllowedIp ⟨ip.toAttrs⟩ = .ok ip := by
  obtain ⟨pl, addr⟩ := ip
  cases addr <;> rfl

theorem collectIps_map_toAttrs :
    ∀ ips : List WireguardIpAddress,
      collectIps (ips.map fun ip => ⟨ip.toAttrs⟩) = ips
  | [] => rfl
  | ip :: rest => by
    simp only [List.map_cons, collectIps, tryFrom_toAttrs,
      collectIps_map_toAttrs rest]

/-- A key string legal for `set`: the standard encoding of some 32-byte
value. -/
def IsValidKey (s : String) : Prop :=
  ∃ b, b.length = 32 ∧ (∀ x ∈ b, x < 256) ∧ s = b64encode b

/-- A pre-shared-key string that survives the round trip: the standard
encoding of a 32-byte value that is not the kernel's all-zero "no key"
sentinel. -/
def IsNonZeroValidKey (s : String) : Prop :=
  ∃ b, b.length = 32 ∧ (∀ x ∈ b, x < 256) ∧ (∃ x ∈ b, x ≠ 0) ∧ s = b64encode b

theorem default_peer_eq :
    (default : WireguardPeerParsed) =
      ⟨none, none, none, none, none, none, none, none, none⟩ := rfl

theorem default_device_eq :
    (default : WireguardParsed) = ⟨none, none, none, none, none, none, none⟩ :=
  rfl

theorem peer_roundtrip (p : WireguardPeerParsed)
    (hpub : ∀ s, p.public_key = some s → IsValidKey s)
    (hpsk : ∀ s, p.preshared_key = some s → IsNonZeroValidKey s)
    (hlh : p.last_handshake = none) (hrx : p.rx_bytes = none)
    (htx : p.tx_bytes = none) :
    ∃ w, p.build = .ok w ∧ WireguardPeerParsed.ofPeer w = p := by
  obtain ⟨ep, pub, psk, ka, lh, rx, tx, ips, pv⟩ := p
  obtain rfl : lh = none := hlh
  obtain rfl : rx = none := hrx
  obtain rfl : tx = none := htx
  cases pub with
  | none =>
    cases psk with
    | none =>
      refine ⟨_, rfl, ?_⟩
      cases ep <;> cases ka <;> cases ips <;> cases pv <;>
        simp [WireguardPeerParsed.ofPeer, WireguardPeerParsed.build, optList,
          keySeg, WireguardPeerParsed.applyAttr, collectIps_map_toAttrs,
          default_peer_eq]
    | some s =>
      obtain ⟨b2, hb2l, hb2b, hb2nz, rfl⟩ := hpsk s rfl
      have hz : b2.all (fun i => i == 0) = false := by
        cases hba : b2.all (fun i => i == 0) with
        | false => rfl
        | true =>
          rw [List.all_eq_true] at hba
          obtain ⟨x, hx, hxz⟩ := hb2nz
          exact absurd (by simpa using hba x hx) hxz
      simp only [WireguardPeerParsed.build, keySeg,
        decode_key_b64encode "peer.preshared_key" b2 hb2l hb2b,
        bind, Except.bind, pure, Except.pure]
      refine ⟨_, rfl, ?_⟩
      cases ep <;> cases ka <;> cases ips <;> cases pv <;>
        simp [WireguardPeerParsed.ofPeer, optList,
          WireguardPeerParsed.applyAttr, collectIps_map_toAttrs, hz,
          default_peer_eq]
  | some s1 =>
    obtain ⟨b1, hb1l, hb1b, rfl⟩ := hpub s1 rfl
    cases psk with
    | none =>
      simp only [WireguardPeerParsed.build, keySeg,
        decode_key_b64encode "peer.public_key" b1 hb1l hb1b,
        bind, Except.bind, pure, Except.pure]
      refine ⟨_, rfl, ?_⟩
      cases ep <;> cases ka <;> cases ips <;> cases pv <;>
        simp [WireguardPeerParsed.ofPeer, optList,
          WireguardPeerParsed.applyAttr, collectIps_map_toAttrs,
          default_peer_eq]
    | some s =>
      obtain ⟨b2, hb2l, hb2b, hb2nz, rfl⟩ := hpsk s rfl
      have hz : b2.all (fun i => i == 0) = false := by
        cases hba : b2.all (fun i => i == 0) with
        | false => rfl
        | true =>
          rw [List.all_eq_true] at hba
          obtain ⟨x, hx, hxz⟩ := hb2nz
          exact absurd (by simpa using hba x hx) hxz
      simp only [WireguardPeerParsed.build, keySeg,
        decode_key_b64encode "peer.public_key" b1 hb1l hb1b,
        decode_key_b64encode "peer.preshared_key" b2 hb2l hb2b,
        bind, Except.bind, pure, Except.pure]
      refine ⟨_, rfl, ?_⟩
      cases ep <;> cases ka <;> cases ips <;> cases pv <;>
        simp [WireguardPeerParsed.ofPeer, optList,
          WireguardPeerParsed.applyAttr, collectIps_map_toAttrs, hz,
          default_peer_eq]

/-- The per-peer hypotheses of the `set` round trip: keys valid, the
pre-shared key not the all-zero sentinel, the get-only fields absent. -/
def SetLegalPeer (p : WireguardPeerParsed) : Prop :=
  (∀ s, p.public_key = some s → IsValidKey s) ∧
  (∀ s, p.preshared_key = some s → IsNonZeroValidKey s) ∧
  p.last_handshake = none ∧ p.rx_bytes = none ∧ p.tx_bytes = none

theorem buildPeers_roundtrip :
    ∀ ps : List WireguardPeerParsed, (∀ p ∈ ps, SetLegalPeer p) →
      ∃ ws, buildPeers ps = .ok ws ∧ ws.map WireguardPeerParsed.ofPeer = ps
  | [], _ => ⟨[], rfl, rfl⟩
  | p :: rest, h => by
    obtain ⟨h1, h2, h3, h4, h5⟩ := h p (List.mem_cons_self p rest)
    obtain ⟨w, hw, hwp⟩ := peer_roundtrip p h1 h2 h3 h4 h5
    obtain ⟨ws, hws, hwsp⟩ :=
      buildPeers_roundtrip rest (fun q hq => h q (List.mem_cons_of_mem p hq))
    exact ⟨w :: ws, by simp [buildPeers, hw, hws], by simp [hwp, hwsp]⟩

/-- C3 (amended): a device record whose populated fields are legal for a
`set` (keys are valid encodings of 32-byte values, the get-only peer
fields — last handshake, traffic counters — are absent) and whose peers'
pre-shared keys are not the encoding of the kernel's all-zero "no key"
sentinel, survives `from_wire(to_wire(cfg, SetDevice))` with every field,
present or absent, reproduced exactly. -/
theorem set_roundtrip (cfg : WireguardParsed)
    (hpub : ∀ s, cfg.public_key = some s → IsValidKey s)
    (hpriv : ∀ s, cfg.private_key = some s → IsValidKey s)
    (hpeers : ∀ ps, cfg.peers = some ps → ∀ p ∈ ps, SetLegalPeer p) :
    ∃ m, cfg.build .SetDevice = .ok m ∧ WireguardParsed.ofMessage m = cfg := by
  obtain ⟨nm, idx, pub, priv, port, fw, peers⟩ := cfg
  cases pub with
  | none =>
    cases priv with
    | none =>
      cases peers with
      | none =>
        refine ⟨_, rfl, ?_⟩
        cases nm <;> cases idx <;> cases port <;> cases fw <;>
          simp [WireguardParsed.ofMessage, WireguardParsed.build, optList,
            keySeg, WireguardParsed.applyAttr, default_device_eq]
      | some ps =>
        obtain ⟨ws, hws, hwsp⟩ := buildPeers_roundtrip ps (hpeers ps rfl)
        simp only [WireguardParsed.build, keySeg, hws,
          bind, Except.bind, pure, Except.pure]
        refine ⟨_, rfl, ?_⟩
        cases nm <;> cases idx <;> cases port <;> cases fw <;>
          simp [WireguardParsed.ofMessage, optList,
            WireguardParsed.applyAttr, default_device_eq, hwsp]
    | some s2 =>
      obtain ⟨b2, hb2l, hb2b, rfl⟩ := hpriv s2 rfl
      cases peers with
      | none =>
        simp only [WireguardParsed.build, keySeg,
          decode_key_b64encode "private_key" b2 hb2l hb2b,
          bind, Except.bind, pure, Except.pure]
        refine ⟨_, rfl, ?_⟩
        cases nm <;> cases idx <;> cases port <;> cases fw <;>
          simp [WireguardParsed.ofMessage, optList,
            WireguardParsed.applyAttr, default_device_eq]
      | some ps =>
        obtain ⟨ws, hws, hwsp⟩ := buildPeers_roundtrip ps (hpeers ps rfl)
        simp only [WireguardParsed.build, keySeg,
          decode_key_b64encode "private_key" b2 hb2l hb2b, hws,
          bind, Except.bind, pure, Except.pure]
        refine ⟨_, rfl, ?_⟩
        cases nm <;> cases idx <;> cases port <;> cases fw <;>
          simp [WireguardParsed.ofMessage, optList,
            WireguardParsed.applyAttr, default_device_eq, hwsp]
  | some s1 =>
    obtain ⟨b1, hb1l, hb1b, rfl⟩ := hpub s1 rfl
    cases priv with
    | none =>
      cases peers with
      | none =>
        simp only [WireguardParsed.build, keySeg,
          decode_key_b64encode "public_key" b1 hb1l hb1b,
          bind, Except.bind, pure, Except.pure]
        refine ⟨_, rfl, ?_⟩
        cases nm <;> cases idx <;> cases port <;> cases fw <;>
          simp [WireguardParsed.ofMessage, optList,
            WireguardParsed.applyAttr, default_device_eq]
      | some ps =>
        obtain ⟨ws, hws, hwsp⟩ := buildPeers_roundtrip ps (hpeers ps rfl)
        simp only [WireguardParsed.build, keySeg,
          decode_key_b64encode "public_key" b1 hb1l hb1b, hws,
          bind, Except.bind, pure, Except.pure]
        refine ⟨_, rfl, ?_⟩
        cases nm <;> cases idx <;> cases port <;> cases fw <;>
          simp [WireguardParsed.ofMessage, optList,
            WireguardParsed.applyAttr, default_device_eq, hwsp]
    | some s2 =>
      obtain ⟨b2, hb2l, hb2b, rfl⟩ := hpriv s2 rfl
      cases peers with
      | none =>
        simp only [WireguardParsed.build, keySeg,
          decode_key_b64encode "public_key" b1 hb1l hb1b,
          decode_key_b64encode "private_key" b2 hb2l hb2b,
          bind, Except.bind, pure, Except.pure]
        refine ⟨_, rfl, ?_⟩
        cases nm <;> cases idx <;> cases port <;> cases fw <;>
          simp [WireguardParsed.ofMessage, optList,
            WireguardParsed.applyAttr, default_device_eq]
      | some ps =>
        obtain ⟨ws, hws, hwsp⟩ := buildPeers_roundtrip ps (hpeers ps rfl)
        simp only [WireguardParsed.build, keySeg,
          decode_key_b64encode "public_key" b1 hb1l hb1b,
          decode_key_b64encode "private_key" b2 hb2l hb2b, hws,
          bind, Except.bind, pure, Except.pure]
        refine ⟨_, rfl, ?_⟩
        cases nm <;> cases idx <;> cases port <;> cases fw <;>
          simp [WireguardParsed.ofMessage, optList,
            WireguardParsed.applyAttr, default_device_eq, hwsp]

/-- A concrete device record exercising every settable field kind. -/
def witnessCfg : WireguardParsed :=
  ⟨some "wg0", some 3, none, some (b64encode (List.range 32)), some 51820,
   some 0,
   some [⟨some ⟨.V4 168430081, 51820⟩, some (b64encode (List.range 32)),
     some (b64encode (List.range 32)), some 25, none, none, none,
     some [⟨0, .V4 0⟩, ⟨0, .V6 0⟩], none⟩]⟩

/-- C3 witness: the concrete record above survives the round trip. -/
theorem set_roundtrip_witness :
    ∃ m, witnessCfg.build .SetDevice = .ok m ∧
      WireguardParsed.ofMessage m = witnessCfg :=
  set_roundtrip witnessCfg
    (fun _ h => nomatch h)
    (fun s h => by
      injection h with h'
      exact ⟨List.range 32, by decide, by decide, h'.symm⟩)
    (fun ps h => by
      injection h with h'
      subst h'
      intro p hp
      rw [List.mem_singleton] at hp
      subst hp
      refine ⟨fun s h => ?_, fun s h => ?_, rfl, rfl, rfl⟩
      · injection h with h''
        exact ⟨List.range 32, by decide, by decide, h''.symm⟩
      · injection h with h''
        exact ⟨List.range 32, by decide, by decide, ⟨1, by decide, by decide⟩,
          h''.symm⟩)

/-- The encoding of the kernel's all-zero "no pre-shared key" sentinel —
a perfectly valid base64 encoding of a 32-byte value. -/
def zeroPskKeyStr : String := b64encode (List.replicate 32 0)

/-- A peer whose only populated field is the all-zero pre-shared key. -/
def zeroPskPeer : WireguardPeerParsed :=
  ⟨none, none, some zeroPskKeyStr, none, none, none, none, none, none⟩

/-- A device record carrying only that peer. -/
def zeroPskCfg : WireguardParsed :=
  ⟨none, none, none, none, none, none, some [zeroPskPeer]⟩

/-- C3 counterexample: the all-zero pre-shared key is legal for a `set`
build (it is a valid 32-byte key string and `build` accepts it), yet the
round trip erases it — the parsed peer has the field absent, so a field
present in the input is not reproduced. -/
theorem set_roundtrip_zero_psk_cex :
    ∃ m, zeroPskCfg.build .SetDevice = .ok m ∧
      zeroPskPeer.preshared_key = some zeroPskKeyStr ∧
      (WireguardParsed.ofMessage m).peers =
        some [{ zeroPskPeer with preshared_key := none }] ∧
      (some zeroPskKeyStr : Option String) ≠ none := by
  refine ⟨⟨.SetDevice, [.Peers [⟨[.PresharedKey (List.replicate 32 0)]⟩]]⟩,
    ?_, rfl, ?_, fun h => Option.noConfusion h⟩
  · simp only [zeroPskCfg, zeroPskPeer, zeroPskKeyStr, WireguardParsed.build,
      WireguardPeerParsed.build, buildPeers, keySeg,
      decode_key_b64encode "peer.preshared_key" (List.replicate 32 0)
        (by decide) (by decide),
      bind, Except.bind, pure, Except.pure, optList]
    rfl
  · rfl
